import Mathlib

/-!
Verification development for the Guardian-AI event/subject lifecycle engine.

The definitions below are a shallow embedding of the Python sources:
* `security_threat_detection.py` — the per-frame detection loop (subject
  pose state machine, lost-track cleanup, global event lifecycle), which is
  the variant wired by `security_orc.py`;
* `security_db_writer.py` — the persistence consumer loop;
* `security_worker.py` — the VLM analysis worker.

Floating-point times, coordinates and confidences are modelled as rationals;
uuid / ObjectId fresh-identifier generation is modelled by counters threaded
through the state (uuids are assumed unique); the multiprocessing queues are
modelled as the lists of messages a producer emits / a consumer drains.
-/

namespace GuardianAI

/-! ### Keypoints and the ground-pose heuristic (security_threat_detection.py lines 18-54) -/

structure Keypoint where
  x : ℚ
  y : ℚ
  conf : ℚ

def LEFT_SHOULDER : Nat := 5
def RIGHT_SHOULDER : Nat := 6
def LEFT_HIP : Nat := 11
def RIGHT_HIP : Nat := 12

/-- The list `valid_points_y` accumulated at lines 39-43: the y-coordinates of
the four torso keypoints whose confidence exceeds 0.5, in the source's order. -/
def valid_points_y (keypoints : Nat → Keypoint) : List ℚ :=
  (if (keypoints LEFT_SHOULDER).conf > 1/2 then [(keypoints LEFT_SHOULDER).y] else []) ++
  (if (keypoints RIGHT_SHOULDER).conf > 1/2 then [(keypoints RIGHT_SHOULDER).y] else []) ++
  (if (keypoints LEFT_HIP).conf > 1/2 then [(keypoints LEFT_HIP).y] else []) ++
  (if (keypoints RIGHT_HIP).conf > 1/2 then [(keypoints RIGHT_HIP).y] else [])

/-- Lines 24-54: fewer than 2 confident torso keypoints yields False, otherwise
the average confident torso y-coordinate is compared against
frame_height * ground_threshold_percent. -/
def is_person_on_ground_yolo (keypoints : Nat → Keypoint)
    (frame_height ground_threshold_percent : ℚ) : Bool :=
  let pts := valid_points_y keypoints
  if pts.length < 2 then false
  else decide (pts.sum / (pts.length : ℚ) > frame_height * ground_threshold_percent)

/-! ### Subjects and the per-subject pose state machine (lines 139-185) -/

inductive SubjStatus
  | normal
  | pending
  | suspicious
deriving DecidableEq, Repr

structure Subject where
  tracking_id : Nat
  status : SubjStatus
  pose_start_time : Option ℚ
  is_confirmed_suspicious : Bool
deriving DecidableEq, Repr

def POSE_CONFIRMATION_SEC : ℚ := 1
def VLM_INTERVAL_SEC : ℚ := 5

/-! ### Persistence commands and VLM tasks (the queue messages) -/

inductive DbAction
  | create_new_subject (tracking_id : Nat) (reid_vector : List ℚ) (camera_id : String)
  | update_subject_status (tracking_id : Nat) (status : SubjStatus)
  | create_event (event_id : Option Nat) (start_camera_id : String)
      (participant_tracking_id : Nat)
  | add_participant_to_event (event_id : Option Nat) (tracking_id : Nat)
  | end_event (event_id : Option Nat)
  | add_vlm_log (event_id : Option Nat) (camera_id : String) (description : String)
      (embedding : List ℚ) (subjects : List Nat)
deriving DecidableEq, Repr

/-- An analyze_threat task payload: the subject dicts carry a single
tracking_id field, so the subject list is modelled by the id list. -/
structure VlmTask where
  event_id : Option Nat
  subjects : List Nat
  base64_frame : Nat
deriving DecidableEq, Repr

/-- Guard at line 165: pending and current_time - pose_start_time >= 1.0.
A pending subject always has pose_start_time set (the Python code would raise
on None there); the none branch is therefore unreachable in any run. -/
def poseHeldLongEnough (subject : Subject) (current_time : ℚ) : Bool :=
  match subject.pose_start_time with
  | some t => decide (current_time - t ≥ POSE_CONFIRMATION_SEC)
  | none => false

/-- Lines 160-185: the transition the loop applies to one tracked subject,
given the result of the ground-pose check, together with the persistence
commands it pushes onto db_writer_queue. -/
def subjectStep (subject : Subject) (on_ground : Bool) (current_time : ℚ) :
    Subject × List DbAction :=
  if on_ground then
    if subject.status = .normal then
      ({ subject with status := .pending, pose_start_time := some current_time }, [])
    else if subject.status = .pending ∧ poseHeldLongEnough subject current_time = true then
      if subject.is_confirmed_suspicious = false then
        ({ subject with status := .suspicious, is_confirmed_suspicious := true },
         [DbAction.update_subject_status subject.tracking_id .suspicious])
      else (subject, [])
    else (subject, [])
  else
    if subject.status ≠ .normal then
      ({ subject with status := .normal, pose_start_time := none,
                      is_confirmed_suspicious := false },
       [DbAction.update_subject_status subject.tracking_id .normal])
    else (subject, [])

/-- Iterated per-subject transitions; each list entry is one frame's
(on_ground, current_time) pair for this subject. -/
def runSubject (subject : Subject) : List (Bool × ℚ) → Subject
  | [] => subject
  | (g, t) :: rest => runSubject (subjectStep subject g t).1 rest

/-! ### The tracked-subjects map (a Python dict keyed by YOLO track id,
insertion-ordered, modelled as an association list) -/

abbrev TrackedMap := List (Nat × Subject)

def lookupSubject (m : TrackedMap) (tid : Nat) : Option Subject :=
  match m with
  | [] => none
  | (k, s) :: rest => if k = tid then some s else lookupSubject rest tid

def updateSubject (m : TrackedMap) (tid : Nat) (s : Subject) : TrackedMap :=
  match m with
  | [] => []
  | (k, s0) :: rest =>
    if k = tid then (k, s) :: rest else (k, s0) :: updateSubject rest tid s

structure Observation where
  track_id : Nat
  keypoints : Nat → Keypoint

/-- Lines 135-185: handle one observed track id: create the subject if unseen
(emitting create_new_subject, persistent id freshly allocated from the
counter), then apply the pose state machine. New dict entries are appended
(Python dicts are insertion-ordered). -/
def processObservation (tracked : TrackedMap) (next_pid : Nat) (obs : Observation)
    (frame_height current_time : ℚ) : TrackedMap × Nat × List DbAction :=
  match lookupSubject tracked obs.track_id with
  | none =>
    let subject : Subject :=
      { tracking_id := next_pid, status := .normal,
        pose_start_time := none, is_confirmed_suspicious := false }
    let createCmd := DbAction.create_new_subject next_pid [] "cam_01"
    let r := subjectStep subject
      (is_person_on_ground_yolo obs.keypoints frame_height (55/100)) current_time
    (tracked ++ [(obs.track_id, r.1)], next_pid + 1, createCmd :: r.2)
  | some subject =>
    let r := subjectStep subject
      (is_person_on_ground_yolo obs.keypoints frame_height (55/100)) current_time
    (updateSubject tracked obs.track_id r.1, next_pid, r.2)

def processObservations (tracked : TrackedMap) (next_pid : Nat)
    (observations : List Observation) (frame_height current_time : ℚ) :
    TrackedMap × Nat × List DbAction :=
  match observations with
  | [] => (tracked, next_pid, [])
  | obs :: rest =>
    let r1 := processObservation tracked next_pid obs frame_height current_time
    let r2 := processObservations r1.1 r1.2.1 rest frame_height current_time
    (r2.1, r2.2.1, r1.2.2 ++ r2.2.2)

/-- Lines 187-191: delete every tracked entry whose track id is absent from
this frame's observations; nothing is emitted. -/
def cleanupLostTracks (tracked : TrackedMap) (current_track_ids : List Nat) :
    TrackedMap :=
  tracked.filter (fun p => p.1 ∈ current_track_ids)

/-- Remove every entry for a transient track id from the map (used to state
that a lost track's entry has no effect on a frame in which it is absent). -/
def eraseTrack : TrackedMap → Nat → TrackedMap
  | [], _ => []
  | (k, s) :: rest, tid =>
    if k = tid then eraseTrack rest tid else (k, s) :: eraseTrack rest tid

/-! ### The single global event (lines 68-74 and 193-247) -/

inductive EventStatus
  | inactive
  | active
deriving DecidableEq, Repr

structure ActiveEvent where
  id : Option Nat
  status : EventStatus
  last_vlm_trigger_time : ℚ
  participants : Finset Nat
deriving DecidableEq

/-- Line 194: the suspicious sublist of the dict's values, in dict order. -/
def suspiciousSubjects (tracked : TrackedMap) : List Subject :=
  (tracked.map Prod.snd).filter (fun s => s.status = .suspicious)

/-- Lines 196-209: START a new event. Only the first suspicious subject seeds
the participant set; the event id is allocated from the counter and passed in
the create_event payload; last_vlm_trigger_time is forced to 0. -/
def eventStart (suspicious : List Subject) (ev : ActiveEvent) (next_eid : Nat) :
    ActiveEvent × List DbAction × Nat :=
  match suspicious with
  | [] => (ev, [], next_eid)
  | first :: _ =>
    if ev.status = .inactive then
      ({ ev with status := .active, id := some next_eid,
                 participants := insert first.tracking_id ev.participants,
                 last_vlm_trigger_time := 0 },
       [DbAction.create_event (some next_eid) "cam_01" first.tracking_id],
       next_eid + 1)
    else (ev, [], next_eid)

/-- Lines 211-220: END the event when no suspicious subjects remain: emit
end_event with the in-memory id, then reset status, id and participants. -/
def eventEnd (suspicious : List Subject) (ev : ActiveEvent) :
    ActiveEvent × List DbAction :=
  if suspicious = [] ∧ ev.status = .active then
    ({ ev with status := .inactive, id := none, participants := ∅ },
     [DbAction.end_event ev.id])
  else (ev, [])

/-- Lines 222-247: the periodic VLM escalation: add the suspicious ids not yet
in participants (one add_participant_to_event command per new id), emit one
analyze_threat task with the full suspicious list and the frame, and stamp
last_vlm_trigger_time. The Python set iteration is modelled by sorting the
new-participant set. -/
def eventEscalate (suspicious : List Subject) (ev : ActiveEvent)
    (current_time : ℚ) (frame_payload : Nat) :
    ActiveEvent × List DbAction × List VlmTask :=
  if ev.status = .active ∧ current_time - ev.last_vlm_trigger_time ≥ VLM_INTERVAL_SEC then
    let current_participant_ids : Finset Nat :=
      (suspicious.map Subject.tracking_id).toFinset
    let new_participants : Finset Nat := current_participant_ids \ ev.participants
    let addCmds := (new_participants.sort (· ≤ ·)).map
      (fun tid => DbAction.add_participant_to_event ev.id tid)
    ({ ev with participants := ev.participants ∪ new_participants,
               last_vlm_trigger_time := current_time },
     addCmds,
     [{ event_id := ev.id,
        subjects := suspicious.map Subject.tracking_id,
        base64_frame := frame_payload }])
  else (ev, [], [])

/-- Lines 193-247 in source order: start, end, escalate. -/
def eventPhase (suspicious : List Subject) (ev : ActiveEvent) (next_eid : Nat)
    (current_time : ℚ) (frame_payload : Nat) :
    ActiveEvent × Nat × List DbAction × List VlmTask :=
  let r1 := eventStart suspicious ev next_eid
  let r2 := eventEnd suspicious r1.1
  let r3 := eventEscalate suspicious r2.1 current_time frame_payload
  (r3.1, r1.2.2, r1.2.1 ++ r2.2 ++ r3.2.1, r3.2.2)

/-! ### The full per-frame step of threat_detection_process -/

structure DetState where
  tracked_subjects : TrackedMap
  active_event : ActiveEvent
  next_pid : Nat
  next_eid : Nat
deriving DecidableEq

/-- One frame of tracker output: either results.boxes.id is None, or a list of
per-person observations plus the frame height and the (opaque) frame payload. -/
inductive Frame
  | noDetections
  | detections (observations : List Observation) (frame_height : ℚ) (payload : Nat)

structure StepResult where
  state : DetState
  db_cmds : List DbAction
  vlm_tasks : List VlmTask

/-- Lines 118-247: one iteration of the detection loop. A frame with
results.boxes.id None is skipped entirely (line 125-128 continue). -/
def step (s : DetState) (current_time : ℚ) (frame : Frame) : StepResult :=
  match frame with
  | .noDetections => ⟨s, [], []⟩
  | .detections observations frame_height payload =>
    let r := processObservations s.tracked_subjects s.next_pid observations
      frame_height current_time
    let current_track_ids := observations.map Observation.track_id
    let tracked := cleanupLostTracks r.1 current_track_ids
    let susp := suspiciousSubjects tracked
    let e := eventPhase susp s.active_event s.next_eid current_time payload
    ⟨{ tracked_subjects := tracked, active_event := e.1,
       next_pid := r.2.1, next_eid := e.2.1 },
     r.2.2 ++ e.2.2.1, e.2.2.2⟩

/-- Lines 64-74: the loop's initial state. -/
def initState : DetState :=
  { tracked_subjects := [],
    active_event :=
      { id := none, status := .inactive, last_vlm_trigger_time := 0,
        participants := ∅ },
    next_pid := 0, next_eid := 0 }

structure TimedFrame where
  time : ℚ
  frame : Frame

/-- Run the detection loop over a list of frames, concatenating the emitted
persistence commands and VLM tasks in emission order. -/
def runFrames (s : DetState) : List TimedFrame → DetState × List DbAction × List VlmTask
  | [] => (s, [], [])
  | tf :: rest =>
    let r := step s tf.time tf.frame
    let rr := runFrames r.state rest
    (rr.1, r.db_cmds ++ rr.2.1, r.vlm_tasks ++ rr.2.2)

/-! ### The persistence consumer (security_db_writer.py lines 24-60) -/

structure DbTask where
  action : String
  payload : Nat
deriving DecidableEq, Repr

/-- The actions the dispatch chain at lines 37-48 recognizes. -/
def knownActions : List String :=
  ["create_event", "add_participant_to_event", "end_event",
   "add_vlm_log", "create_new_subject", "update_subject_status"]

structure WriterResult (σ : Type) where
  store : σ
  logs : List String
  closed : Bool
deriving DecidableEq

/-- Lines 24-60: drain the queue one task at a time in arrival order. The
external DatabaseManager is the oracle exec; exec returning none models the
dispatched call raising, which is caught at line 56 and logged. A None task or
a shutdown action breaks the loop, after which the connection is closed
(line 59, modelled by the closed flag). An unknown action only logs a warning
(line 50). An exhausted list models a consumer still blocked in get():
nothing is closed. -/
def db_writer_process {σ : Type} (exec : σ → DbTask → Option σ) (store : σ) :
    List (Option DbTask) → WriterResult σ
  | [] => ⟨store, [], false⟩
  | none :: _ => ⟨store, ["shutdown"], true⟩
  | some task :: rest =>
    if task.action = "shutdown" then ⟨store, ["shutdown"], true⟩
    else if task.action ∈ knownActions then
      match exec store task with
      | some store2 =>
        let r := db_writer_process exec store2 rest
        ⟨r.store, r.logs, r.closed⟩
      | none =>
        let r := db_writer_process exec store rest
        ⟨r.store, "error" :: r.logs, r.closed⟩
    else
      let r := db_writer_process exec store rest
      ⟨r.store, "warning unknown action" :: r.logs, r.closed⟩

/-! ### The analysis worker (security_worker.py lines 31-157) -/

/-- Lines 31-96: run_vlm_analysis. The whole body sits in one try/except; the
external call chain (screen grab + OpenAI completion) is the analyze oracle,
none modelling any raised exception. On success exactly one add_vlm_log
command is pushed; on failure the exception is logged and nothing is pushed;
there is no retry. The dummy embedding (np.random.rand) is a parameter. -/
def run_vlm_analysis (analyze : VlmTask → Option String) (embedding : List ℚ)
    (payload : VlmTask) : List DbAction :=
  match analyze payload with
  | some description =>
    [DbAction.add_vlm_log payload.event_id "cam_01" description embedding
      payload.subjects]
  | none => []

/-- Lines 134-157: the worker's consumption of vlm_task_queue: each iteration
polls one message; None breaks the loop; an analyze_threat task runs
run_vlm_analysis; any other task tag is ignored. The result is the
concatenation of all persistence commands the worker pushes. -/
def background_ai_worker (analyze : VlmTask → Option String) (embedding : List ℚ) :
    List (Option (String × VlmTask)) → List DbAction
  | [] => []
  | none :: _ => []
  | some (tag, payload) :: rest =>
    (if tag = "analyze_threat" then run_vlm_analysis analyze embedding payload
     else []) ++
    background_ai_worker analyze embedding rest

/-! ### Classifying emitted commands and the run invariant -/

/-- The event id a command mentions, if it is an event-scoped command. -/
def eventIdOf : DbAction → Option (Option Nat)
  | .create_event eid _ _ => some eid
  | .add_participant_to_event eid _ => some eid
  | .end_event eid => some eid
  | _ => none

def isCreateEv : DbAction → Bool
  | .create_event _ _ _ => true
  | _ => false

def isEndEv : DbAction → Bool
  | .end_event _ => true
  | _ => false

def isCreateOf (X : Nat) : DbAction → Bool
  | .create_event (some e) _ _ => decide (e = X)
  | _ => false

def isEndOf (X : Nat) : DbAction → Bool
  | .end_event (some e) => decide (e = X)
  | _ => false

def isAddOf (X : Nat) : DbAction → Bool
  | .add_participant_to_event (some e) _ => decide (e = X)
  | _ => false

/-- No add_participant command for event id X is emitted after an end_event
for X anywhere in the trace. -/
def NoAddAfterEnd (T : List DbAction) : Prop :=
  ∀ (X : Nat) (T1 : List DbAction) (c : DbAction) (T2 : List DbAction),
    T = T1 ++ c :: T2 → isEndOf X c = true → ∀ c2 ∈ T2, isAddOf X c2 = false

/-- The inductive invariant tying the lifecycle manager's state (the single
event record and the event-id counter) to the persistence-command trace
emitted so far. -/
structure EvInv (ev : ActiveEvent) (eid : Nat) (T : List DbAction) : Prop where
  wf : ev.status = .active ↔ ∃ i, ev.id = some i
  emptyParts : ev.status = .inactive → ev.participants = ∅
  idLt : ∀ X, ev.id = some X → X < eid
  traceLt : ∀ X, ∀ c ∈ T, eventIdOf c = some (some X) → X < eid
  endedNotCurrent : ∀ X, (∃ c ∈ T, isEndOf X c = true) → ev.id ≠ some X
  endUnique : ∀ X, T.countP (isEndOf X) ≤ 1
  createUnique : ∀ X, T.countP (isCreateOf X) ≤ 1
  noAddAfterEnd : NoAddAfterEnd T

/-! ### Basic facts used by several claims -/

theorem known_ne_shutdown {a : String} (h : a ∈ knownActions) : a ≠ "shutdown" := by
  fin_cases h <;> decide

/-! ### One-step facts about the subject pose state machine -/

theorem subjectStep_normal_true (s : Subject) (t : ℚ) (h : s.status = .normal) :
    subjectStep s true t =
      ({ s with status := .pending, pose_start_time := some t }, []) := by
  simp [subjectStep, h]

theorem subjectStep_normal_false (s : Subject) (t : ℚ) (h : s.status = .normal) :
    subjectStep s false t = (s, []) := by
  simp [subjectStep, h]

theorem subjectStep_false_notnormal (s : Subject) (t : ℚ) (h : s.status ≠ .normal) :
    subjectStep s false t =
      ({ s with status := .normal, pose_start_time := none,
                is_confirmed_suspicious := false },
       [DbAction.update_subject_status s.tracking_id .normal]) := by
  simp [subjectStep, h]

theorem subjectStep_pending_short (s : Subject) (t : ℚ) (h : s.status = .pending)
    (h2 : poseHeldLongEnough s t = false) : subjectStep s true t = (s, []) := by
  simp [subjectStep, h, h2]

theorem subjectStep_pending_long_unconfirmed (s : Subject) (t : ℚ)
    (h : s.status = .pending) (h2 : poseHeldLongEnough s t = true)
    (h3 : s.is_confirmed_suspicious = false) :
    subjectStep s true t =
      ({ s with status := .suspicious, is_confirmed_suspicious := true },
       [DbAction.update_subject_status s.tracking_id .suspicious]) := by
  simp [subjectStep, h, h2, h3]

theorem subjectStep_pending_long_confirmed (s : Subject) (t : ℚ)
    (h : s.status = .pending) (h2 : poseHeldLongEnough s t = true)
    (h3 : s.is_confirmed_suspicious = true) : subjectStep s true t = (s, []) := by
  simp [subjectStep, h, h2, h3]

theorem subjectStep_suspicious_true (s : Subject) (t : ℚ)
    (h : s.status = .suspicious) : subjectStep s true t = (s, []) := by
  simp [subjectStep, h]

theorem runSubject_append (s : Subject) (l1 l2 : List (Bool × ℚ)) :
    runSubject s (l1 ++ l2) = runSubject (runSubject s l1) l2 := by
  induction l1 generalizing s with
  | nil => rfl
  | cons x xs ih =>
    obtain ⟨g, t⟩ := x
    simpa [runSubject] using ih (subjectStep s g t).1

/-- A subject that started an episode in the Normal status and is currently
not Normal got there through one unbroken pose-true episode: the consumed
input splits at the frame x that moved it Normal to Pending, every later
frame was pose-true, the recorded pose_start_time is x's time throughout, and
if the subject is now Suspicious some later frame was at least the
confirmation window after x. -/
theorem pending_episode (sub : Subject) (inputs : List (Bool × ℚ))
    (hn : sub.status = .normal)
    (hend : (runSubject sub inputs).status ≠ .normal) :
    ∃ l1 x l2, inputs = l1 ++ x :: l2 ∧ x.1 = true ∧ (∀ y ∈ l2, y.1 = true) ∧
      (runSubject sub (l1 ++ [x])).status = .pending ∧
      (runSubject sub (l1 ++ [x])).pose_start_time = some x.2 ∧
      (runSubject sub inputs).pose_start_time = some x.2 ∧
      ((runSubject sub inputs).status = .suspicious →
        ∃ y ∈ l2, y.2 - x.2 ≥ POSE_CONFIRMATION_SEC) := by
  induction inputs using List.reverseRecOn with
  | nil => exact absurd hn hend
  | append_singleton l y ih =>
    obtain ⟨g, t⟩ := y
    rw [runSubject_append] at hend
    set m := runSubject sub l with hm
    by_cases hmn : m.status = .normal
    · cases g with
      | false =>
        rw [show runSubject m [(false, t)] = m by
          simp [runSubject, subjectStep_normal_false m t hmn]] at hend
        exact absurd hmn hend
      | true =>
        have hstep : runSubject m [(true, t)] =
            { m with status := .pending, pose_start_time := some t } := by
          simp [runSubject, subjectStep_normal_true m t hmn]
        refine ⟨l, (true, t), [], rfl, rfl, by simp, ?_, ?_, ?_, ?_⟩
        · rw [runSubject_append, ← hm, hstep]
        · rw [runSubject_append, ← hm, hstep]
        · rw [runSubject_append, ← hm, hstep]
        · rw [runSubject_append, ← hm, hstep]
          intro habs
          simp at habs
    · obtain ⟨l1, x, l2, hdec, hx1, hl2, hpend, hpose1, hposem, hsusp⟩ := ih hmn
      cases g with
      | false =>
        rw [show runSubject m [(false, t)] =
            { m with status := .normal, pose_start_time := none,
                     is_confirmed_suspicious := false } by
          simp [runSubject, subjectStep_false_notnormal m t hmn]] at hend
        exact absurd rfl hend
      | true =>
        have hmem2 : ∀ y ∈ l2 ++ [((true : Bool), t)], y.1 = true := by
          intro y hy
          rcases List.mem_append.mp hy with h | h
          · exact hl2 y h
          · simp at h
            simp [h]
        have hdec2 : l ++ [((true : Bool), t)] = l1 ++ x :: (l2 ++ [(true, t)]) := by
          rw [hdec]
          simp
        -- the subject is Pending or Suspicious; a pose-true frame keeps the
        -- episode alive and never touches pose_start_time
        rcases hms : m.status with h1 | h1 | h1
        · exact absurd hms hmn
        · -- pending
          by_cases hheld : poseHeldLongEnough m t = true
          · by_cases hconf : m.is_confirmed_suspicious = true
            · have hstep : runSubject m [(true, t)] = m := by
                simp [runSubject, subjectStep_pending_long_confirmed m t hms hheld hconf]
              refine ⟨l1, x, l2 ++ [(true, t)], hdec2, hx1, hmem2, hpend, hpose1, ?_, ?_⟩
              · rw [runSubject_append, ← hm, hstep]
                exact hposem
              · rw [runSubject_append, ← hm, hstep]
                intro habs
                rw [habs] at hms
                exact absurd hms (by simp)
            · have hconf2 : m.is_confirmed_suspicious = false := by
                simpa using hconf
              have hstep : runSubject m [(true, t)] =
                  { m with status := .suspicious, is_confirmed_suspicious := true } := by
                simp [runSubject,
                  subjectStep_pending_long_unconfirmed m t hms hheld hconf2]
              refine ⟨l1, x, l2 ++ [(true, t)], hdec2, hx1, hmem2, hpend, hpose1, ?_, ?_⟩
              · rw [runSubject_append, ← hm, hstep]
                exact hposem
              · intro _
                refine ⟨(true, t), by simp, ?_⟩
                have : decide (t - x.2 ≥ POSE_CONFIRMATION_SEC) = true := by
                  unfold poseHeldLongEnough at hheld
                  rw [hposem] at hheld
                  exact hheld
                simpa using this
          · have hheld2 : poseHeldLongEnough m t = false := by
              simpa using hheld
            have hstep : runSubject m [(true, t)] = m := by
              simp [runSubject, subjectStep_pending_short m t hms hheld2]
            refine ⟨l1, x, l2 ++ [(true, t)], hdec2, hx1, hmem2, hpend, hpose1, ?_, ?_⟩
            · rw [runSubject_append, ← hm, hstep]
              exact hposem
            · rw [runSubject_append, ← hm, hstep]
              intro habs
              rw [habs] at hms
              exact absurd hms (by simp)
        · -- suspicious
          have hstep : runSubject m [(true, t)] = m := by
            simp [runSubject, subjectStep_suspicious_true m t hms]
          refine ⟨l1, x, l2 ++ [(true, t)], hdec2, hx1, hmem2, hpend, hpose1, ?_, ?_⟩
          · rw [runSubject_append, ← hm, hstep]
            exact hposem
          · intro _
            obtain ⟨y, hy, hyge⟩ := hsusp hms
            exact ⟨y, by simp [hy], hyge⟩

/-- C2: a subject reaches Suspicious only after an unbroken Pending episode of
length at least the confirmation window: Normal with pose-true moves to
Pending recording pose_start_time; Pending with pose-true, elapsed time at
least POSE_CONFIRMATION_SEC and not yet confirmed moves to Suspicious; any
pose-false frame during Pending or Suspicious returns the subject to Normal
clearing pose_start_time and the confirmed flag; and over any input sequence
from Normal, ending Suspicious requires a frame x starting the Pending
episode, pose-true on every later frame, and a later frame at least the full
window after x. -/
theorem claim2_confirmation_window :
    (∀ (sub : Subject) (t : ℚ), sub.status = .normal →
      subjectStep sub true t =
        ({ sub with status := .pending, pose_start_time := some t }, [])) ∧
    (∀ (sub : Subject) (t t0 : ℚ), sub.status = .pending →
      sub.pose_start_time = some t0 → t - t0 ≥ POSE_CONFIRMATION_SEC →
      sub.is_confirmed_suspicious = false →
      subjectStep sub true t =
        ({ sub with status := .suspicious, is_confirmed_suspicious := true },
         [DbAction.update_subject_status sub.tracking_id .suspicious])) ∧
    (∀ (sub : Subject) (t : ℚ), sub.status ≠ .normal →
      subjectStep sub false t =
        ({ sub with status := .normal, pose_start_time := none,
                    is_confirmed_suspicious := false },
         [DbAction.update_subject_status sub.tracking_id .normal])) ∧
    (∀ (sub : Subject) (inputs : List (Bool × ℚ)), sub.status = .normal →
      (runSubject sub inputs).status = .suspicious →
      ∃ l1 x l2, inputs = l1 ++ x :: l2 ∧ x.1 = true ∧ (∀ y ∈ l2, y.1 = true) ∧
        (runSubject sub (l1 ++ [x])).status = .pending ∧
        (runSubject sub (l1 ++ [x])).pose_start_time = some x.2 ∧
        ∃ y ∈ l2, y.2 - x.2 ≥ POSE_CONFIRMATION_SEC) := by
  refine ⟨subjectStep_normal_true, ?_, subjectStep_false_notnormal, ?_⟩
  · intro sub t t0 h hpose hge hconf
    refine subjectStep_pending_long_unconfirmed sub t h ?_ hconf
    unfold poseHeldLongEnough
    rw [hpose]
    simpa using hge
  · intro sub inputs hn hsusp
    have hend : (runSubject sub inputs).status ≠ .normal := by
      rw [hsusp]
      simp
    obtain ⟨l1, x, l2, hdec, hx1, hl2, hpend, hpose1, _, himp⟩ :=
      pending_episode sub inputs hn hend
    exact ⟨l1, x, l2, hdec, hx1, hl2, hpend, hpose1, himp hsusp⟩

/-- Witness for claim2_confirmation_window: a fresh Normal subject holding the
pose at times 0 and 1 ends Suspicious, exhibiting the episode decomposition. -/
theorem claim2_witness :
    ∃ l1 x l2, ([((true : Bool), (0 : ℚ)), (true, 1)] : List (Bool × ℚ)) =
        l1 ++ x :: l2 ∧ x.1 = true ∧ (∀ y ∈ l2, y.1 = true) ∧
      (runSubject ⟨0, .normal, none, false⟩ (l1 ++ [x])).status = .pending ∧
      (runSubject ⟨0, .normal, none, false⟩ (l1 ++ [x])).pose_start_time =
        some x.2 ∧
      ∃ y ∈ l2, y.2 - x.2 ≥ POSE_CONFIRMATION_SEC :=
  claim2_confirmation_window.2.2.2 ⟨0, .normal, none, false⟩
    [(true, 0), (true, 1)] rfl
    (by norm_num [runSubject, subjectStep, poseHeldLongEnough,
          POSE_CONFIRMATION_SEC]; simp)

theorem eventIdOf_none {c : DbAction} (h : eventIdOf c = none) (X : Nat) :
    isCreateEv c = false ∧ isEndEv c = false ∧ isCreateOf X c = false ∧
      isEndOf X c = false ∧ isAddOf X c = false := by
  cases c <;> simp_all [eventIdOf, isCreateEv, isEndEv, isCreateOf, isEndOf, isAddOf]

/-! ### Case equations for the event lifecycle blocks -/

theorem eventStart_nil (ev : ActiveEvent) (eid : Nat) :
    eventStart [] ev eid = (ev, [], eid) := rfl

theorem eventStart_cons_inactive (first : Subject) (rest : List Subject)
    (ev : ActiveEvent) (eid : Nat) (h : ev.status = .inactive) :
    eventStart (first :: rest) ev eid =
      ({ ev with status := .active, id := some eid,
                 participants := insert first.tracking_id ev.participants,
                 last_vlm_trigger_time := 0 },
       [DbAction.create_event (some eid) "cam_01" first.tracking_id],
       eid + 1) := by
  simp [eventStart, h]

theorem eventStart_cons_active (first : Subject) (rest : List Subject)
    (ev : ActiveEvent) (eid : Nat) (h : ev.status = .active) :
    eventStart (first :: rest) ev eid = (ev, [], eid) := by
  simp [eventStart, h]

theorem eventEnd_cons (first : Subject) (rest : List Subject) (ev : ActiveEvent) :
    eventEnd (first :: rest) ev = (ev, []) := by
  simp [eventEnd]

theorem eventEnd_nil_active (ev : ActiveEvent) (h : ev.status = .active) :
    eventEnd [] ev =
      ({ ev with status := .inactive, id := none, participants := ∅ },
       [DbAction.end_event ev.id]) := by
  simp [eventEnd, h]

theorem eventEnd_nil_inactive (ev : ActiveEvent) (h : ev.status = .inactive) :
    eventEnd [] ev = (ev, []) := by
  simp [eventEnd, h]

theorem eventEscalate_not_active (susp : List Subject) (ev : ActiveEvent)
    (t : ℚ) (p : Nat) (h : ev.status = .inactive) :
    eventEscalate susp ev t p = (ev, [], []) := by
  simp [eventEscalate, h]

theorem eventEscalate_early (susp : List Subject) (ev : ActiveEvent)
    (t : ℚ) (p : Nat) (h : ¬ t - ev.last_vlm_trigger_time ≥ VLM_INTERVAL_SEC) :
    eventEscalate susp ev t p = (ev, [], []) := by
  simp [eventEscalate, h]

theorem eventEscalate_fire (susp : List Subject) (ev : ActiveEvent)
    (t : ℚ) (p : Nat) (h : ev.status = .active)
    (h2 : t - ev.last_vlm_trigger_time ≥ VLM_INTERVAL_SEC) :
    eventEscalate susp ev t p =
      ({ ev with
         participants := ev.participants ∪
           ((susp.map Subject.tracking_id).toFinset \ ev.participants),
         last_vlm_trigger_time := t },
       (((susp.map Subject.tracking_id).toFinset \ ev.participants).sort
           (· ≤ ·)).map
         (fun tid => DbAction.add_participant_to_event ev.id tid),
       [{ event_id := ev.id, subjects := susp.map Subject.tracking_id,
          base64_frame := p }]) := by
  simp [eventEscalate, h, h2]

/-! ### Purity of the subject-phase commands and trace decomposition facts -/

theorem isEndOf_eventIdOf {X : Nat} {c : DbAction} (h : isEndOf X c = true) :
    eventIdOf c = some (some X) := by
  cases c with
  | end_event e =>
    cases e with
    | none => simp [isEndOf] at h
    | some e => simp [isEndOf] at h; simp [eventIdOf, h]
  | create_event e a b => simp [isEndOf] at h
  | add_participant_to_event e a => simp [isEndOf] at h
  | create_new_subject a b c => simp [isEndOf] at h
  | update_subject_status a b => simp [isEndOf] at h
  | add_vlm_log a b c d e => simp [isEndOf] at h

theorem isCreateOf_eventIdOf {X : Nat} {c : DbAction} (h : isCreateOf X c = true) :
    eventIdOf c = some (some X) := by
  cases c with
  | create_event e a b =>
    cases e with
    | none => simp [isCreateOf] at h
    | some e => simp [isCreateOf] at h; simp [eventIdOf, h]
  | end_event e => simp [isCreateOf] at h
  | add_participant_to_event e a => simp [isCreateOf] at h
  | create_new_subject a b c => simp [isCreateOf] at h
  | update_subject_status a b => simp [isCreateOf] at h
  | add_vlm_log a b c d e => simp [isCreateOf] at h

theorem isAddOf_eventIdOf {X : Nat} {c : DbAction} (h : isAddOf X c = true) :
    eventIdOf c = some (some X) := by
  cases c with
  | add_participant_to_event e a =>
    cases e with
    | none => simp [isAddOf] at h
    | some e => simp [isAddOf] at h; simp [eventIdOf, h]
  | end_event e => simp [isAddOf] at h
  | create_event e a b => simp [isAddOf] at h
  | create_new_subject a b c => simp [isAddOf] at h
  | update_subject_status a b => simp [isAddOf] at h
  | add_vlm_log a b c d e => simp [isAddOf] at h

theorem subjectStep_cmds_pure (s : Subject) (g : Bool) (t : ℚ) :
    ∀ c ∈ (subjectStep s g t).2, eventIdOf c = none := by
  intro c hc
  unfold subjectStep at hc
  split_ifs at hc <;> simp_all [eventIdOf]

theorem processObservation_cmds_pure (m : TrackedMap) (pid : Nat)
    (obs : Observation) (fh t : ℚ) :
    ∀ c ∈ (processObservation m pid obs fh t).2.2, eventIdOf c = none := by
  intro c hc
  cases hl : lookupSubject m obs.track_id with
  | none =>
    simp [processObservation, hl] at hc
    rcases hc with hc | hc
    · subst hc; rfl
    · exact subjectStep_cmds_pure _ _ _ c hc
  | some subject =>
    simp [processObservation, hl] at hc
    exact subjectStep_cmds_pure _ _ _ c hc

theorem processObservations_cmds_pure (m : TrackedMap) (pid : Nat)
    (l : List Observation) (fh t : ℚ) :
    ∀ c ∈ (processObservations m pid l fh t).2.2, eventIdOf c = none := by
  induction l generalizing m pid with
  | nil => simp [processObservations]
  | cons obs rest ih =>
    intro c hc
    simp only [processObservations, List.mem_append] at hc
    rcases hc with hc | hc
    · exact processObservation_cmds_pure _ _ _ _ _ c hc
    · exact ih _ _ c hc

theorem nae_nil : NoAddAfterEnd [] := by
  intro X T1 c T2 hdec
  exact absurd hdec (by simp)

theorem nae_single (c0 : DbAction) : NoAddAfterEnd [c0] := by
  intro X T1 c T2 hdec hend c2 hc2
  have hlen := congrArg List.length hdec
  simp at hlen
  have : T2 = [] := List.length_eq_zero.mp (by omega)
  subst this
  simp at hc2

theorem nae_of_no_end {S : List DbAction}
    (h : ∀ (X : Nat), ∀ c ∈ S, isEndOf X c = false) : NoAddAfterEnd S := by
  intro X T1 c T2 hdec hend c2 hc2
  have hmem : c ∈ S := by
    rw [hdec]
    simp
  rw [h X c hmem] at hend
  exact absurd hend (by simp)

theorem nae_append {T S : List DbAction} (hT : NoAddAfterEnd T)
    (hS : NoAddAfterEnd S)
    (hTS : ∀ X, (∃ c ∈ T, isEndOf X c = true) → ∀ c2 ∈ S, isAddOf X c2 = false) :
    NoAddAfterEnd (T ++ S) := by
  intro X T1 c T2 hdec hend c2 hc2
  rcases List.append_eq_append_iff.mp hdec.symm with ⟨a, ha1, ha2⟩ | ⟨a, ha1, ha2⟩
  · cases a with
    | nil =>
      simp at ha2
      exact hS X [] c T2 (by simpa using ha2.symm) hend c2 hc2
    | cons d a2 =>
      rw [List.cons_append] at ha2
      injection ha2 with hcd hT2
      subst hcd
      rcases List.mem_append.mp (hT2 ▸ hc2) with h2 | h2
      · exact hT X T1 c a2 ha1 hend c2 h2
      · refine hTS X ⟨c, ?_, hend⟩ c2 h2
        rw [ha1]
        simp
  · exact hS X a c T2 ha2 hend c2 hc2

/-- Appending commands that mention no event id preserves the invariant. -/
theorem evInv_pure_append {ev : ActiveEvent} {eid : Nat} {T S : List DbAction}
    (inv : EvInv ev eid T) (hpure : ∀ c ∈ S, eventIdOf c = none) :
    EvInv ev eid (T ++ S) := by
  refine ⟨inv.wf, inv.emptyParts, inv.idLt, ?_, ?_, ?_, ?_, ?_⟩
  · intro X c hc hcid
    rcases List.mem_append.mp hc with h | h
    · exact inv.traceLt X c h hcid
    · rw [hpure c h] at hcid
      exact absurd hcid (by simp)
  · rintro X ⟨c, hc, hend⟩
    rcases List.mem_append.mp hc with h | h
    · exact inv.endedNotCurrent X ⟨c, h, hend⟩
    · rw [(eventIdOf_none (hpure c h) X).2.2.2.1] at hend
      exact absurd hend (by simp)
  · intro X
    rw [List.countP_append]
    have hz : S.countP (isEndOf X) = 0 :=
      List.countP_eq_zero.mpr (fun c hc => by
        rw [(eventIdOf_none (hpure c hc) X).2.2.2.1]
        simp)
    rw [hz]
    simpa using inv.endUnique X
  · intro X
    rw [List.countP_append]
    have hz : S.countP (isCreateOf X) = 0 :=
      List.countP_eq_zero.mpr (fun c hc => by
        rw [(eventIdOf_none (hpure c hc) X).2.2.1]
        simp)
    rw [hz]
    simpa using inv.createUnique X
  · refine nae_append inv.noAddAfterEnd (nae_of_no_end ?_) ?_
    · intro X c hc
      exact (eventIdOf_none (hpure c hc) X).2.2.2.1
    · intro X _ c2 hc2
      exact (eventIdOf_none (hpure c2 hc2) X).2.2.2.2

/-! ### The event phase, case by case -/

theorem eventPhase_nil_inactive (ev : ActiveEvent) (eid : Nat) (t : ℚ) (p : Nat)
    (h : ev.status = .inactive) :
    eventPhase [] ev eid t p = (ev, eid, [], []) := by
  simp [eventPhase, eventStart_nil, eventEnd_nil_inactive ev h,
        eventEscalate_not_active [] ev t p h]

theorem eventPhase_nil_active (ev : ActiveEvent) (eid : Nat) (t : ℚ) (p : Nat)
    (h : ev.status = .active) :
    eventPhase [] ev eid t p =
      ({ ev with status := .inactive, id := none, participants := ∅ }, eid,
       [DbAction.end_event ev.id], []) := by
  have h2 := eventEnd_nil_active ev h
  have h3 := eventEscalate_not_active []
    ({ ev with status := .inactive, id := none, participants := ∅ }) t p rfl
  simp [eventPhase, eventStart_nil, h2, h3]

theorem eventPhase_cons_inactive_early (first : Subject) (rest : List Subject)
    (ev : ActiveEvent) (eid : Nat) (t : ℚ) (p : Nat)
    (h : ev.status = .inactive) (h2 : ¬ t ≥ VLM_INTERVAL_SEC) :
    eventPhase (first :: rest) ev eid t p =
      ({ ev with status := .active, id := some eid,
                 participants := insert first.tracking_id ev.participants,
                 last_vlm_trigger_time := 0 }, eid + 1,
       [DbAction.create_event (some eid) "cam_01" first.tracking_id], []) := by
  have hs := eventStart_cons_inactive first rest ev eid h
  have hesc := eventEscalate_early (first :: rest)
    ({ ev with status := .active, id := some eid,
               participants := insert first.tracking_id ev.participants,
               last_vlm_trigger_time := 0 }) t p (by simpa using h2)
  simp [eventPhase, hs, eventEnd_cons, hesc]

theorem eventPhase_cons_inactive_fire (first : Subject) (rest : List Subject)
    (ev : ActiveEvent) (eid : Nat) (t : ℚ) (p : Nat)
    (h : ev.status = .inactive) (h2 : t ≥ VLM_INTERVAL_SEC) :
    eventPhase (first :: rest) ev eid t p =
      ({ ev with status := .active, id := some eid,
                 participants := insert first.tracking_id ev.participants ∪
                   (((first :: rest).map Subject.tracking_id).toFinset \
                     insert first.tracking_id ev.participants),
                 last_vlm_trigger_time := t }, eid + 1,
       DbAction.create_event (some eid) "cam_01" first.tracking_id ::
         ((((first :: rest).map Subject.tracking_id).toFinset \
             insert first.tracking_id ev.participants).sort (· ≤ ·)).map
           (fun tid => DbAction.add_participant_to_event (some eid) tid),
       [{ event_id := some eid,
          subjects := (first :: rest).map Subject.tracking_id,
          base64_frame := p }]) := by
  have hs := eventStart_cons_inactive first rest ev eid h
  have hesc := eventEscalate_fire (first :: rest)
    ({ ev with status := .active, id := some eid,
               participants := insert first.tracking_id ev.participants,
               last_vlm_trigger_time := 0 }) t p rfl (by simpa using h2)
  simp [eventPhase, hs, eventEnd_cons, hesc]

theorem eventPhase_cons_active_early (first : Subject) (rest : List Subject)
    (ev : ActiveEvent) (eid : Nat) (t : ℚ) (p : Nat) (h : ev.status = .active)
    (h2 : ¬ t - ev.last_vlm_trigger_time ≥ VLM_INTERVAL_SEC) :
    eventPhase (first :: rest) ev eid t p = (ev, eid, [], []) := by
  simp [eventPhase, eventStart_cons_active first rest ev eid h, eventEnd_cons,
        eventEscalate_early (first :: rest) ev t p h2]

theorem eventPhase_cons_active_fire (first : Subject) (rest : List Subject)
    (ev : ActiveEvent) (eid : Nat) (t : ℚ) (p : Nat) (h : ev.status = .active)
    (h2 : t - ev.last_vlm_trigger_time ≥ VLM_INTERVAL_SEC) :
    eventPhase (first :: rest) ev eid t p =
      ({ ev with participants := ev.participants ∪
                   (((first :: rest).map Subject.tracking_id).toFinset \
                     ev.participants),
                 last_vlm_trigger_time := t }, eid,
       ((((first :: rest).map Subject.tracking_id).toFinset \
           ev.participants).sort (· ≤ ·)).map
         (fun tid => DbAction.add_participant_to_event ev.id tid),
       [{ event_id := ev.id, subjects := (first :: rest).map Subject.tracking_id,
          base64_frame := p }]) := by
  simp [eventPhase, eventStart_cons_active first rest ev eid h, eventEnd_cons,
        eventEscalate_fire (first :: rest) ev t p h h2]

theorem isAddOf_false_of_ne {X : Nat} {o : Option Nat} (hne : o ≠ some X)
    (tid : Nat) : isAddOf X (DbAction.add_participant_to_event o tid) = false := by
  cases o with
  | none => simp [isAddOf]
  | some e =>
    simp [isAddOf]
    intro he
    exact absurd (by rw [he]) hne

/-- The END block preserves the run invariant. -/
theorem evInv_end_case (ev : ActiveEvent) (eid : Nat) (T : List DbAction)
    (inv : EvInv ev eid T) (hst : ev.status = .active) :
    EvInv { ev with status := .inactive, id := none, participants := ∅ } eid
      (T ++ [DbAction.end_event ev.id]) := by
  obtain ⟨i, hid⟩ := inv.wf.mp hst
  refine ⟨by simp, fun _ => rfl, by simp, ?_, ?_, ?_, ?_, ?_⟩
  · intro X c hc hcid
    rcases List.mem_append.mp hc with hcT | hcE
    · exact inv.traceLt X c hcT hcid
    · simp at hcE
      subst hcE
      simp [eventIdOf, hid] at hcid
      exact hcid ▸ inv.idLt i hid
  · rintro X -
    simp
  · intro X
    rw [List.countP_append]
    by_cases hX : isEndOf X (DbAction.end_event ev.id) = true
    · have hidX : ev.id = some X := by
        rw [hid] at hX ⊢
        simp [isEndOf] at hX
        rw [hX]
      have hTz : T.countP (isEndOf X) = 0 := by
        by_contra hnz
        obtain ⟨c, hc, hcend⟩ :=
          List.countP_pos_iff.mp (Nat.pos_of_ne_zero hnz)
        exact inv.endedNotCurrent X ⟨c, hc, hcend⟩ hidX
      rw [hTz]
      simp [List.countP_cons, hX]
    · have hz : List.countP (isEndOf X) [DbAction.end_event ev.id] = 0 := by
        simp only [List.countP_cons, List.countP_nil]
        simp [Bool.not_eq_true] at hX
        simp [hX]
      rw [hz]
      simpa using inv.endUnique X
  · intro X
    rw [List.countP_append]
    have hz : List.countP (isCreateOf X) [DbAction.end_event ev.id] = 0 := by
      simp [List.countP_cons, isCreateOf]
    rw [hz]
    simpa using inv.createUnique X
  · refine nae_append inv.noAddAfterEnd (nae_single _) ?_
    rintro X - c2 hc2
    simp at hc2
    subst hc2
    simp [isAddOf]

/-- The START block (possibly followed by a same-frame escalation) preserves
the run invariant: the new id is the counter value, the emitted commands are
one create_event plus add_participant commands for the fresh id. -/
theorem evInv_start_case (ev : ActiveEvent) (eid : Nat) (T : List DbAction)
    (inv : EvInv ev eid T) (P : Finset Nat) (lt : ℚ) (pid0 : Nat)
    (adds : List DbAction)
    (hadds : ∀ c ∈ adds,
      ∃ tid, c = DbAction.add_participant_to_event (some eid) tid) :
    EvInv { ev with status := .active, id := some eid, participants := P,
                    last_vlm_trigger_time := lt } (eid + 1)
      (T ++ (DbAction.create_event (some eid) "cam_01" pid0 :: adds)) := by
  refine ⟨by simp, by simp, ?_, ?_, ?_, ?_, ?_, ?_⟩
  · intro X hX
    simp at hX
    omega
  · intro X c hc hcid
    rcases List.mem_append.mp hc with hcT | hcE
    · have := inv.traceLt X c hcT hcid
      omega
    · rcases List.mem_cons.mp hcE with hcE | hcE
      · subst hcE
        simp [eventIdOf] at hcid
        omega
      · obtain ⟨tid, rfl⟩ := hadds c hcE
        simp [eventIdOf] at hcid
        omega
  · rintro X ⟨c, hc, hend⟩
    rcases List.mem_append.mp hc with hcT | hcE
    · have hlt := inv.traceLt X c hcT (isEndOf_eventIdOf hend)
      simp
      omega
    · rcases List.mem_cons.mp hcE with hcE | hcE
      · subst hcE
        simp [isEndOf] at hend
      · obtain ⟨tid, rfl⟩ := hadds c hcE
        simp [isEndOf] at hend
  · intro X
    rw [List.countP_append]
    have hz : List.countP (isEndOf X)
        (DbAction.create_event (some eid) "cam_01" pid0 :: adds) = 0 := by
      refine List.countP_eq_zero.mpr ?_
      intro c hc
      rcases List.mem_cons.mp hc with hc | hc
      · subst hc
        simp [isEndOf]
      · obtain ⟨tid, rfl⟩ := hadds c hc
        simp [isEndOf]
    rw [hz]
    simpa using inv.endUnique X
  · intro X
    rw [List.countP_append, List.countP_cons]
    have hzadds : adds.countP (isCreateOf X) = 0 := by
      refine List.countP_eq_zero.mpr ?_
      intro c hc
      obtain ⟨tid, rfl⟩ := hadds c hc
      simp [isCreateOf]
    rw [hzadds]
    by_cases hX : X = eid
    · subst hX
      have hTz : T.countP (isCreateOf X) = 0 := by
        by_contra hnz
        obtain ⟨c, hc, hcc⟩ :=
          List.countP_pos_iff.mp (Nat.pos_of_ne_zero hnz)
        have := inv.traceLt X c hc (isCreateOf_eventIdOf hcc)
        omega
      rw [hTz]
      simp [isCreateOf]
    · have hc0 : isCreateOf X
          (DbAction.create_event (some eid) "cam_01" pid0) = false := by
        simp [isCreateOf]
        omega
      rw [hc0]
      simpa using inv.createUnique X
  · refine nae_append inv.noAddAfterEnd (nae_of_no_end ?_) ?_
    · intro X c hc
      rcases List.mem_cons.mp hc with hc | hc
      · subst hc
        simp [isEndOf]
      · obtain ⟨tid, rfl⟩ := hadds c hc
        simp [isEndOf]
    · rintro X ⟨c, hc, hend⟩ c2 hc2
      have hlt := inv.traceLt X c hc (isEndOf_eventIdOf hend)
      rcases List.mem_cons.mp hc2 with hc2 | hc2
      · subst hc2
        simp [isAddOf]
      · obtain ⟨tid, rfl⟩ := hadds c2 hc2
        refine isAddOf_false_of_ne ?_ tid
        intro habs
        simp at habs
        omega

/-- The ESCALATE block preserves the run invariant: it only adds
add_participant commands carrying the current id. -/
theorem evInv_escalate_case (ev : ActiveEvent) (eid : Nat) (T : List DbAction)
    (inv : EvInv ev eid T) (hst : ev.status = .active) (P : Finset Nat) (lt : ℚ)
    (adds : List DbAction)
    (hadds : ∀ c ∈ adds, ∃ tid, c = DbAction.add_participant_to_event ev.id tid) :
    EvInv { ev with participants := P, last_vlm_trigger_time := lt } eid
      (T ++ adds) := by
  refine ⟨?_, ?_, inv.idLt, ?_, ?_, ?_, ?_, ?_⟩
  · simpa using inv.wf
  · intro habs
    have h2 : ev.status = .inactive := habs
    rw [hst] at h2
    exact absurd h2 (by simp)
  · intro X c hc hcid
    rcases List.mem_append.mp hc with hcT | hcE
    · exact inv.traceLt X c hcT hcid
    · obtain ⟨tid, rfl⟩ := hadds c hcE
      simp [eventIdOf] at hcid
      exact inv.idLt X hcid
  · rintro X ⟨c, hc, hend⟩
    rcases List.mem_append.mp hc with hcT | hcE
    · exact inv.endedNotCurrent X ⟨c, hcT, hend⟩
    · obtain ⟨tid, rfl⟩ := hadds c hcE
      simp [isEndOf] at hend
  · intro X
    rw [List.countP_append]
    have hz : adds.countP (isEndOf X) = 0 := by
      refine List.countP_eq_zero.mpr ?_
      intro c hc
      obtain ⟨tid, rfl⟩ := hadds c hc
      simp [isEndOf]
    rw [hz]
    simpa using inv.endUnique X
  · intro X
    rw [List.countP_append]
    have hz : adds.countP (isCreateOf X) = 0 := by
      refine List.countP_eq_zero.mpr ?_
      intro c hc
      obtain ⟨tid, rfl⟩ := hadds c hc
      simp [isCreateOf]
    rw [hz]
    simpa using inv.createUnique X
  · refine nae_append inv.noAddAfterEnd (nae_of_no_end ?_) ?_
    · intro X c hc
      obtain ⟨tid, rfl⟩ := hadds c hc
      simp [isEndOf]
    · rintro X ⟨c, hc, hend⟩ c2 hc2
      obtain ⟨tid, rfl⟩ := hadds c2 hc2
      exact isAddOf_false_of_ne (inv.endedNotCurrent X ⟨c, hc, hend⟩) tid

/-- The event phase preserves the run invariant, whatever the suspicious list,
timing and prior trace. -/
theorem evInv_eventPhase (ev : ActiveEvent) (eid : Nat) (susp : List Subject)
    (t : ℚ) (p : Nat) (T : List DbAction) (inv : EvInv ev eid T) :
    EvInv (eventPhase susp ev eid t p).1 (eventPhase susp ev eid t p).2.1
      (T ++ (eventPhase susp ev eid t p).2.2.1) := by
  cases susp with
  | nil =>
    cases hst : ev.status with
    | inactive =>
      rw [eventPhase_nil_inactive ev eid t p hst]
      simpa using inv
    | active =>
      rw [eventPhase_nil_active ev eid t p hst]
      exact evInv_end_case ev eid T inv hst
  | cons first rest =>
    cases hst : ev.status with
    | inactive =>
      by_cases ht : t ≥ VLM_INTERVAL_SEC
      · rw [eventPhase_cons_inactive_fire first rest ev eid t p hst ht]
        refine evInv_start_case ev eid T inv _ _ _ _ ?_
        intro c hc
        obtain ⟨tid, _, rfl⟩ := List.mem_map.mp hc
        exact ⟨tid, rfl⟩
      · rw [eventPhase_cons_inactive_early first rest ev eid t p hst ht]
        refine evInv_start_case ev eid T inv _ _ _ [] ?_
        intro c hc
        simp at hc
    | active =>
      by_cases ht : t - ev.last_vlm_trigger_time ≥ VLM_INTERVAL_SEC
      · rw [eventPhase_cons_active_fire first rest ev eid t p hst ht]
        refine evInv_escalate_case ev eid T inv hst _ _ _ ?_
        intro c hc
        obtain ⟨tid, _, rfl⟩ := List.mem_map.mp hc
        exact ⟨tid, rfl⟩
      · rw [eventPhase_cons_active_early first rest ev eid t p hst ht]
        simpa using inv

/-- One detection-loop iteration preserves the run invariant. -/
theorem evInv_step (s : DetState) (T : List DbAction) (t : ℚ) (f : Frame)
    (inv : EvInv s.active_event s.next_eid T) :
    EvInv (step s t f).state.active_event (step s t f).state.next_eid
      (T ++ (step s t f).db_cmds) := by
  cases f with
  | noDetections => simpa [step] using inv
  | detections obs fh p =>
    have inv2 := evInv_pure_append inv
      (processObservations_cmds_pure s.tracked_subjects s.next_pid obs fh t)
    have h3 := evInv_eventPhase s.active_event s.next_eid
      (suspiciousSubjects (cleanupLostTracks
        (processObservations s.tracked_subjects s.next_pid obs fh t).1
        (obs.map Observation.track_id))) t p
      (T ++ (processObservations s.tracked_subjects s.next_pid obs fh t).2.2) inv2
    simpa [step, List.append_assoc] using h3

theorem evInv_init : EvInv initState.active_event initState.next_eid [] := by
  refine ⟨by simp [initState], fun _ => rfl, by simp [initState], by simp, ?_,
    by simp, by simp, nae_nil⟩
  rintro X ⟨c, hc, -⟩
  simp at hc

/-- The run invariant holds along any frame sequence. -/
theorem evInv_run (s : DetState) (T : List DbAction) (frames : List TimedFrame)
    (inv : EvInv s.active_event s.next_eid T) :
    EvInv (runFrames s frames).1.active_event (runFrames s frames).1.next_eid
      (T ++ (runFrames s frames).2.1) := by
  induction frames generalizing s T with
  | nil => simpa [runFrames] using inv
  | cons tf rest ih =>
    have h1 := evInv_step s T tf.time tf.frame inv
    have h2 := ih (step s tf.time tf.frame).state
      (T ++ (step s tf.time tf.frame).db_cmds) h1
    simpa [runFrames, List.append_assoc] using h2

/-- The per-frame shape of the event-lifecycle emissions: create only from
inactive, end only from active, at most one create, never both. -/
theorem eventPhase_shape (susp : List Subject) (ev : ActiveEvent) (eid : Nat)
    (t : ℚ) (p : Nat) :
    (∀ c ∈ (eventPhase susp ev eid t p).2.2.1, isCreateEv c = true →
      ev.status = .inactive) ∧
    (∀ c ∈ (eventPhase susp ev eid t p).2.2.1, isEndEv c = true →
      ev.status = .active) ∧
    ((eventPhase susp ev eid t p).2.2.1.countP isCreateEv ≤ 1) ∧
    ¬ ((∃ c ∈ (eventPhase susp ev eid t p).2.2.1, isCreateEv c = true) ∧
       (∃ c ∈ (eventPhase susp ev eid t p).2.2.1, isEndEv c = true)) := by
  cases susp with
  | nil =>
    cases hst : ev.status with
    | inactive =>
      rw [eventPhase_nil_inactive ev eid t p hst]
      simp
    | active =>
      rw [eventPhase_nil_active ev eid t p hst]
      refine ⟨?_, fun c hc hce => rfl, ?_, ?_⟩
      · intro c hc hcr
        simp at hc
        subst hc
        simp [isCreateEv] at hcr
      · simp [List.countP_cons, isCreateEv]
      · rintro ⟨⟨c, hc, hcr⟩, -⟩
        simp at hc
        subst hc
        simp [isCreateEv] at hcr
  | cons first rest =>
    cases hst : ev.status with
    | inactive =>
      by_cases ht : t ≥ VLM_INTERVAL_SEC
      · rw [eventPhase_cons_inactive_fire first rest ev eid t p hst ht]
        refine ⟨fun c hc hcr => rfl, ?_, ?_, ?_⟩
        · intro c hc hce
          rcases List.mem_cons.mp hc with hc | hc
          · subst hc
            simp [isEndEv] at hce
          · obtain ⟨tid, -, rfl⟩ := List.mem_map.mp hc
            simp [isEndEv] at hce
        · rw [List.countP_cons]
          have hz : List.countP isCreateEv
              ((((((first :: rest).map Subject.tracking_id).toFinset \
                  insert first.tracking_id ev.participants).sort (· ≤ ·))).map
                (fun tid => DbAction.add_participant_to_event (some eid) tid)) = 0 := by
            refine List.countP_eq_zero.mpr ?_
            intro c hc
            obtain ⟨tid, -, rfl⟩ := List.mem_map.mp hc
            simp [isCreateEv]
          rw [hz]
          simp [isCreateEv]
        · rintro ⟨-, ⟨c, hc, hce⟩⟩
          rcases List.mem_cons.mp hc with hc | hc
          · subst hc
            simp [isEndEv] at hce
          · obtain ⟨tid, -, rfl⟩ := List.mem_map.mp hc
            simp [isEndEv] at hce
      · rw [eventPhase_cons_inactive_early first rest ev eid t p hst ht]
        refine ⟨fun c hc hcr => rfl, ?_, by simp [List.countP_cons, isCreateEv], ?_⟩
        · intro c hc hce
          simp at hc
          subst hc
          simp [isEndEv] at hce
        · rintro ⟨-, ⟨c, hc, hce⟩⟩
          simp at hc
          subst hc
          simp [isEndEv] at hce
    | active =>
      by_cases ht : t - ev.last_vlm_trigger_time ≥ VLM_INTERVAL_SEC
      · rw [eventPhase_cons_active_fire first rest ev eid t p hst ht]
        refine ⟨?_, fun c hc hce => rfl, ?_, ?_⟩
        · intro c hc hcr
          obtain ⟨tid, -, rfl⟩ := List.mem_map.mp hc
          simp [isCreateEv] at hcr
        · have hz : List.countP isCreateEv
              ((((((first :: rest).map Subject.tracking_id).toFinset \
                  ev.participants).sort (· ≤ ·))).map
                (fun tid => DbAction.add_participant_to_event ev.id tid)) = 0 := by
            refine List.countP_eq_zero.mpr ?_
            intro c hc
            obtain ⟨tid, -, rfl⟩ := List.mem_map.mp hc
            simp [isCreateEv]
          show List.countP isCreateEv
              ((((((first :: rest).map Subject.tracking_id).toFinset \
                  ev.participants).sort (· ≤ ·))).map
                (fun tid => DbAction.add_participant_to_event ev.id tid)) ≤ 1
          rw [hz]
          omega
        · rintro ⟨⟨c, hc, hcr⟩, -⟩
          obtain ⟨tid, -, rfl⟩ := List.mem_map.mp hc
          simp [isCreateEv] at hcr
      · rw [eventPhase_cons_active_early first rest ev eid t p hst ht]
        simp

/-- The per-frame command list splits into the subject-phase commands and the
event-phase commands. -/
theorem step_cmds_split (s : DetState) (t : ℚ) (obs : List Observation)
    (fh : ℚ) (p : Nat) :
    (step s t (.detections obs fh p)).db_cmds =
      (processObservations s.tracked_subjects s.next_pid obs fh t).2.2 ++
      (eventPhase (suspiciousSubjects (cleanupLostTracks
          (processObservations s.tracked_subjects s.next_pid obs fh t).1
          (obs.map Observation.track_id))) s.active_event s.next_eid t
        p).2.2.1 := rfl

/-- C1: at most one event exists at any time: the state holds one optional
event record, create_event is emitted only when the event status is inactive,
end_event only when it is active, never both in a frame and never two creates
in a frame; and along every run from the initial state the record is
well-formed (active exactly when an id is held). -/
theorem claim1_single_event :
    (∀ (s : DetState) (t : ℚ) (f : Frame), ∀ c ∈ (step s t f).db_cmds,
      isCreateEv c = true → s.active_event.status = .inactive) ∧
    (∀ (s : DetState) (t : ℚ) (f : Frame), ∀ c ∈ (step s t f).db_cmds,
      isEndEv c = true → s.active_event.status = .active) ∧
    (∀ (s : DetState) (t : ℚ) (f : Frame),
      (step s t f).db_cmds.countP isCreateEv ≤ 1) ∧
    (∀ (s : DetState) (t : ℚ) (f : Frame),
      ¬ ((∃ c ∈ (step s t f).db_cmds, isCreateEv c = true) ∧
         (∃ c ∈ (step s t f).db_cmds, isEndEv c = true))) ∧
    (∀ frames : List TimedFrame,
      (runFrames initState frames).1.active_event.status = .active ↔
        ∃ i, (runFrames initState frames).1.active_event.id = some i) := by
  refine ⟨?_, ?_, ?_, ?_, ?_⟩
  · intro s t f c hc hcr
    cases f with
    | noDetections => simp [step] at hc
    | detections obs fh p =>
      rw [step_cmds_split] at hc
      rcases List.mem_append.mp hc with h | h
      · rw [(eventIdOf_none (processObservations_cmds_pure _ _ _ _ _ c h) 0).1]
          at hcr
        exact absurd hcr (by simp)
      · exact (eventPhase_shape _ _ _ _ _).1 c h hcr
  · intro s t f c hc hce
    cases f with
    | noDetections => simp [step] at hc
    | detections obs fh p =>
      rw [step_cmds_split] at hc
      rcases List.mem_append.mp hc with h | h
      · rw [(eventIdOf_none (processObservations_cmds_pure _ _ _ _ _ c h) 0).2.1]
          at hce
        exact absurd hce (by simp)
      · exact (eventPhase_shape _ _ _ _ _).2.1 c h hce
  · intro s t f
    cases f with
    | noDetections => simp [step]
    | detections obs fh p =>
      rw [step_cmds_split, List.countP_append]
      have hz : (processObservations s.tracked_subjects s.next_pid obs fh
          t).2.2.countP isCreateEv = 0 := by
        refine List.countP_eq_zero.mpr ?_
        intro c hc
        rw [(eventIdOf_none (processObservations_cmds_pure _ _ _ _ _ c hc) 0).1]
        simp
      rw [hz]
      simpa using (eventPhase_shape _ _ _ _ _).2.2.1
  · intro s t f
    rintro ⟨⟨c, hc, hcr⟩, ⟨c2, hc2, hce⟩⟩
    cases f with
    | noDetections => simp [step] at hc
    | detections obs fh p =>
      rw [step_cmds_split] at hc hc2
      have hcE : c ∈ (eventPhase (suspiciousSubjects (cleanupLostTracks
          (processObservations s.tracked_subjects s.next_pid obs fh t).1
          (obs.map Observation.track_id))) s.active_event s.next_eid t
          p).2.2.1 := by
        rcases List.mem_append.mp hc with h | h
        · rw [(eventIdOf_none
              (processObservations_cmds_pure _ _ _ _ _ c h) 0).1] at hcr
          exact absurd hcr (by simp)
        · exact h
      have hc2E : c2 ∈ (eventPhase (suspiciousSubjects (cleanupLostTracks
          (processObservations s.tracked_subjects s.next_pid obs fh t).1
          (obs.map Observation.track_id))) s.active_event s.next_eid t
          p).2.2.1 := by
        rcases List.mem_append.mp hc2 with h | h
        · rw [(eventIdOf_none
              (processObservations_cmds_pure _ _ _ _ _ c2 h) 0).2.1] at hce
          exact absurd hce (by simp)
        · exact h
      exact (eventPhase_shape _ _ _ _ _).2.2.2 ⟨⟨c, hcE, hcr⟩, ⟨c2, hc2E, hce⟩⟩
  · intro frames
    exact (evInv_run initState [] frames evInv_init).wf

/-- Witness for claim1_single_event: a frame with an observation list carrying
no persons while an event is active emits an end_event, and indeed the
pre-state's event was active. -/
theorem claim1_witness :
    (⟨[], ⟨some 0, .active, 0, ∅⟩, 0, 1⟩ : DetState).active_event.status =
      .active :=
  claim1_single_event.2.1 ⟨[], ⟨some 0, .active, 0, ∅⟩, 0, 1⟩ 0
    (Frame.detections [] 100 0) (DbAction.end_event (some 0))
    (by rw [step_cmds_split]
        simp [processObservations, cleanupLostTracks, suspiciousSubjects,
          eventPhase_nil_active (⟨some 0, .active, 0, ∅⟩ : ActiveEvent) 1 0 0 rfl])
    rfl

/-- C3: when the suspicious set is empty while the event is active, exactly
one end_event carrying the in-memory id is emitted and the event record is
discarded entirely (status inactive, id cleared, participants emptied); and
over any run from the initial state, each event id X sees at most one
end_event, at most one create_event, and no add_participant after its
end_event. -/
theorem claim3_end_event :
    (∀ (ev : ActiveEvent) (eid : Nat) (t : ℚ) (p : Nat), ev.status = .active →
      eventPhase [] ev eid t p =
        ({ ev with status := .inactive, id := none, participants := ∅ }, eid,
         [DbAction.end_event ev.id], [])) ∧
    (∀ (frames : List TimedFrame) (X : Nat),
      ((runFrames initState frames).2.1.countP (isEndOf X) ≤ 1) ∧
      ((runFrames initState frames).2.1.countP (isCreateOf X) ≤ 1) ∧
      (∀ (T1 : List DbAction) (c : DbAction) (T2 : List DbAction),
        (runFrames initState frames).2.1 = T1 ++ c :: T2 →
        isEndOf X c = true → ∀ c2 ∈ T2, isAddOf X c2 = false)) := by
  constructor
  · intro ev eid t p h
    exact eventPhase_nil_active ev eid t p h
  · intro frames X
    have hinv := evInv_run initState [] frames evInv_init
    refine ⟨by simpa using hinv.endUnique X, by simpa using hinv.createUnique X, ?_⟩
    intro T1 c T2 hdec hend c2 hc2
    exact hinv.noAddAfterEnd X T1 c T2 (by simpa using hdec) hend c2 hc2

/-- Witness for claim3_end_event: ending an active event with id 0 emits one
end_event for id 0 and resets the record. -/
theorem claim3_witness :
    eventPhase [] ⟨some 0, .active, 0, ∅⟩ 1 0 0 =
      (⟨none, .inactive, 0, ∅⟩, 1, [DbAction.end_event (some 0)], []) :=
  claim3_end_event.1 ⟨some 0, .active, 0, ∅⟩ 1 0 0 rfl

/-- C5: starting an event seeds the participants with only the first
suspicious subject's persistent id, allocates the id from the counter and
passes it in the one create_event command, and forces the escalation
timestamp to 0 so that (current time being at least the interval, as any
wall-clock time is) exactly one analysis task is emitted on the same frame;
and whenever no event is active in a reachable state the participant set is
empty, so the seed is the whole set. -/
theorem claim5_event_start :
    (∀ (ev : ActiveEvent) (eid : Nat) (first : Subject) (rest : List Subject),
      ev.status = .inactive → ev.participants = ∅ →
      eventStart (first :: rest) ev eid =
        ({ ev with status := .active, id := some eid,
                   participants := {first.tracking_id},
                   last_vlm_trigger_time := 0 },
         [DbAction.create_event (some eid) "cam_01" first.tracking_id],
         eid + 1)) ∧
    (∀ (ev : ActiveEvent) (eid : Nat) (first : Subject) (rest : List Subject)
        (t : ℚ) (p : Nat), ev.status = .inactive → t ≥ VLM_INTERVAL_SEC →
      ((eventPhase (first :: rest) ev eid t p).2.1 = eid + 1 ∧
       (eventPhase (first :: rest) ev eid t p).2.2.1.countP isCreateEv = 1 ∧
       (eventPhase (first :: rest) ev eid t p).2.2.2 =
         [{ event_id := some eid,
            subjects := (first :: rest).map Subject.tracking_id,
            base64_frame := p }])) ∧
    (∀ frames : List TimedFrame,
      (runFrames initState frames).1.active_event.status = .inactive →
      (runFrames initState frames).1.active_event.participants = ∅) := by
  refine ⟨?_, ?_, ?_⟩
  · intro ev eid first rest h hparts
    rw [eventStart_cons_inactive first rest ev eid h, hparts]
    simp
  · intro ev eid first rest t p h ht
    rw [eventPhase_cons_inactive_fire first rest ev eid t p h ht]
    refine ⟨rfl, ?_, rfl⟩
    rw [List.countP_cons]
    have hz : List.countP isCreateEv
        ((((((first :: rest).map Subject.tracking_id).toFinset \
            insert first.tracking_id ev.participants).sort (· ≤ ·))).map
          (fun tid => DbAction.add_participant_to_event (some eid) tid)) = 0 := by
      refine List.countP_eq_zero.mpr ?_
      intro c hc
      obtain ⟨tid, -, rfl⟩ := List.mem_map.mp hc
      simp [isCreateEv]
    rw [hz]
    simp [isCreateEv]
  · intro frames
    exact (evInv_run initState [] frames evInv_init).emptyParts

/-- Witness for claim5_event_start: a single suspicious subject with
persistent id 5 starts event 0 with participants exactly that id. -/
theorem claim5_witness :
    eventStart [⟨5, .suspicious, some 0, true⟩] ⟨none, .inactive, 0, ∅⟩ 0 =
      (⟨some 0, .active, 0, {5}⟩,
       [DbAction.create_event (some 0) "cam_01" 5], 1) :=
  claim5_event_start.1 ⟨none, .inactive, 0, ∅⟩ 0 ⟨5, .suspicious, some 0, true⟩
    [] rfl rfl

/-- C6: on a frame where the event is active and the escalation interval has
elapsed, the escalate block computes the new participants as the current
suspicious persistent ids minus the existing participants, emits exactly one
add_participant command per new id while folding each into participants (so
participants becomes the union with the suspicious ids), emits exactly one
analysis task carrying the event id, the full current suspicious id list and
the frame, and stamps last_vlm_trigger_time with the current time whether or
not any new participant was found. -/
theorem claim6_escalate (ev : ActiveEvent) (susp : List Subject) (t : ℚ)
    (p : Nat) (h : ev.status = .active)
    (h2 : t - ev.last_vlm_trigger_time ≥ VLM_INTERVAL_SEC) :
    (eventEscalate susp ev t p).1.participants =
        ev.participants ∪ (susp.map Subject.tracking_id).toFinset ∧
    (eventEscalate susp ev t p).1.last_vlm_trigger_time = t ∧
    (eventEscalate susp ev t p).1.id = ev.id ∧
    (eventEscalate susp ev t p).1.status = ev.status ∧
    (∀ X : Nat,
      (eventEscalate susp ev t p).2.1.count
          (DbAction.add_participant_to_event ev.id X) =
        if X ∈ (susp.map Subject.tracking_id).toFinset \ ev.participants
        then 1 else 0) ∧
    (eventEscalate susp ev t p).2.2 =
      [{ event_id := ev.id, subjects := susp.map Subject.tracking_id,
         base64_frame := p }] := by
  rw [eventEscalate_fire susp ev t p h h2]
  refine ⟨Finset.union_sdiff_self_eq_union, rfl, rfl, rfl, ?_, rfl⟩
  intro X
  have hinj : Function.Injective
      (fun tid => DbAction.add_participant_to_event ev.id tid) := by
    intro a b hab
    simpa using hab
  have := List.count_map_of_injective
    (((susp.map Subject.tracking_id).toFinset \ ev.participants).sort (· ≤ ·))
    (fun tid => DbAction.add_participant_to_event ev.id tid) hinj X
  rw [this]
  by_cases hX : X ∈ (susp.map Subject.tracking_id).toFinset \ ev.participants
  · rw [if_pos hX]
    exact List.count_eq_one_of_mem (Finset.sort_nodup _ _)
      ((Finset.mem_sort _).mpr hX)
  · rw [if_neg hX]
    exact List.count_eq_zero.mpr (fun hc => hX ((Finset.mem_sort _).mp hc))

/-- Witness for claim6_escalate: an active event, five seconds after its last
escalation, with no suspicious subjects: no add_participant command, one
analysis task, timestamp updated. -/
theorem claim6_witness :
    (eventEscalate [] ⟨some 0, .active, 0, ∅⟩ 5 0).1.participants =
        (⟨some 0, .active, 0, ∅⟩ : ActiveEvent).participants ∪
          (([] : List Subject).map Subject.tracking_id).toFinset ∧
    (eventEscalate [] ⟨some 0, .active, 0, ∅⟩ 5 0).1.last_vlm_trigger_time = 5 ∧
    (eventEscalate [] ⟨some 0, .active, 0, ∅⟩ 5 0).1.id =
        (⟨some 0, .active, 0, ∅⟩ : ActiveEvent).id ∧
    (eventEscalate [] ⟨some 0, .active, 0, ∅⟩ 5 0).1.status =
        (⟨some 0, .active, 0, ∅⟩ : ActiveEvent).status ∧
    (∀ X : Nat,
      (eventEscalate [] ⟨some 0, .active, 0, ∅⟩ 5 0).2.1.count
          (DbAction.add_participant_to_event (some 0) X) =
        if X ∈ (([] : List Subject).map Subject.tracking_id).toFinset \
            (⟨some 0, .active, 0, ∅⟩ : ActiveEvent).participants
        then 1 else 0) ∧
    (eventEscalate [] ⟨some 0, .active, 0, ∅⟩ 5 0).2.2 =
      [{ event_id := some 0,
         subjects := ([] : List Subject).map Subject.tracking_id,
         base64_frame := 0 }] :=
  claim6_escalate ⟨some 0, .active, 0, ∅⟩ [] 5 0 rfl
    (by norm_num [VLM_INTERVAL_SEC])

/-! ### Lost-track cleanup facts -/

theorem step_tracked_split (s : DetState) (t : ℚ) (obs : List Observation)
    (fh : ℚ) (p : Nat) :
    (step s t (.detections obs fh p)).state.tracked_subjects =
      cleanupLostTracks
        (processObservations s.tracked_subjects s.next_pid obs fh t).1
        (obs.map Observation.track_id) := rfl

theorem lookup_cleanup (m : TrackedMap) (ids : List Nat) (tid : Nat) :
    lookupSubject (cleanupLostTracks m ids) tid =
      if tid ∈ ids then lookupSubject m tid else none := by
  induction m with
  | nil => simp [cleanupLostTracks, lookupSubject]
  | cons e rest ih =>
    obtain ⟨k, sub⟩ := e
    simp only [cleanupLostTracks, List.filter_cons] at ih ⊢
    by_cases hk : k ∈ ids
    · by_cases hkt : k = tid
      · subst hkt
        simp [lookupSubject, hk]
      · simp [lookupSubject, hk, hkt, ih]
    · by_cases hkt : k = tid
      · subst hkt
        simp [lookupSubject, hk, ih]
      · simp [lookupSubject, hk, hkt, ih]

theorem eraseTrack_append (m1 m2 : TrackedMap) (tid : Nat) :
    eraseTrack (m1 ++ m2) tid = eraseTrack m1 tid ++ eraseTrack m2 tid := by
  induction m1 with
  | nil => rfl
  | cons e rest ih =>
    obtain ⟨k, s⟩ := e
    by_cases hk : k = tid <;> simp [eraseTrack, hk, ih]

theorem lookup_erase_ne (m : TrackedMap) (tid k : Nat) (h : k ≠ tid) :
    lookupSubject (eraseTrack m tid) k = lookupSubject m k := by
  induction m with
  | nil => simp [eraseTrack]
  | cons e rest ih =>
    obtain ⟨k0, sub⟩ := e
    by_cases hk0 : k0 = tid
    · subst hk0
      have hne : ¬ k0 = k := fun hh => h hh.symm
      simp [eraseTrack, lookupSubject, hne, ih]
    · by_cases hk : k0 = k
      · subst hk
        simp [eraseTrack, lookupSubject, hk0]
      · simp [eraseTrack, lookupSubject, hk0, hk, ih]

theorem update_erase_comm (m : TrackedMap) (tid k : Nat) (s : Subject)
    (h : k ≠ tid) :
    updateSubject (eraseTrack m tid) k s = eraseTrack (updateSubject m k s) tid := by
  induction m with
  | nil => simp [eraseTrack, updateSubject]
  | cons e rest ih =>
    obtain ⟨k0, sub⟩ := e
    by_cases hk0 : k0 = tid
    · subst hk0
      have hne : ¬ k0 = k := fun hh => h hh.symm
      simp [eraseTrack, updateSubject, hne, ih]
    · by_cases hk : k0 = k
      · subst hk
        simp [eraseTrack, updateSubject, hk0]
      · simp [eraseTrack, updateSubject, hk0, hk, ih]

theorem processObservation_erase (m : TrackedMap) (pid : Nat)
    (obs : Observation) (fh t : ℚ) (tid : Nat) (h : obs.track_id ≠ tid) :
    processObservation (eraseTrack m tid) pid obs fh t =
      (eraseTrack (processObservation m pid obs fh t).1 tid,
       (processObservation m pid obs fh t).2.1,
       (processObservation m pid obs fh t).2.2) := by
  cases hl : lookupSubject m obs.track_id with
  | none =>
    have hl2 : lookupSubject (eraseTrack m tid) obs.track_id = none := by
      rw [lookup_erase_ne m tid obs.track_id h, hl]
    simp [processObservation, hl, hl2, eraseTrack_append, eraseTrack, h]
  | some subject =>
    have hl2 : lookupSubject (eraseTrack m tid) obs.track_id = some subject := by
      rw [lookup_erase_ne m tid obs.track_id h, hl]
    simp [processObservation, hl, hl2, update_erase_comm m tid obs.track_id _ h]

theorem processObservations_erase (m : TrackedMap) (pid : Nat)
    (l : List Observation) (fh t : ℚ) (tid : Nat)
    (h : tid ∉ l.map Observation.track_id) :
    processObservations (eraseTrack m tid) pid l fh t =
      (eraseTrack (processObservations m pid l fh t).1 tid,
       (processObservations m pid l fh t).2.1,
       (processObservations m pid l fh t).2.2) := by
  induction l generalizing m pid with
  | nil => simp [processObservations]
  | cons obs rest ih =>
    have hobs : obs.track_id ≠ tid := by
      intro hh
      exact h (by simp [hh])
    have hrest : tid ∉ rest.map Observation.track_id := by
      intro hh
      exact h (by simp [hh])
    simp only [processObservations,
      processObservation_erase m pid obs fh t tid hobs,
      ih (processObservation m pid obs fh t).1
        (processObservation m pid obs fh t).2.1 hrest]

theorem cleanup_erase (m : TrackedMap) (ids : List Nat) (tid : Nat)
    (h : tid ∉ ids) :
    cleanupLostTracks (eraseTrack m tid) ids = cleanupLostTracks m ids := by
  induction m with
  | nil => simp [eraseTrack]
  | cons e rest ih =>
    obtain ⟨k, sub⟩ := e
    simp only [cleanupLostTracks] at ih
    by_cases hk : k = tid
    · subst hk
      simpa [eraseTrack, cleanupLostTracks, List.filter_cons, h] using ih
    · by_cases hmem : k ∈ ids
      · simpa [eraseTrack, cleanupLostTracks, List.filter_cons, hk, hmem] using ih
      · simpa [eraseTrack, cleanupLostTracks, List.filter_cons, hk, hmem] using ih

/-- C4: a transient track id present in the internal map but absent from this
frame's observation set is removed on that frame: after the step only ids
observed this frame remain; moreover erasing such an entry beforehand yields
exactly the same step result (same commands, same tasks, same state), so no
persistence command is emitted for the removal itself. -/
theorem claim4_track_lost :
    (∀ (s : DetState) (t : ℚ) (obs : List Observation) (fh : ℚ) (p : Nat)
        (tid : Nat),
      (∃ sub, lookupSubject s.tracked_subjects tid = some sub) →
      tid ∉ obs.map Observation.track_id →
      lookupSubject (step s t (.detections obs fh p)).state.tracked_subjects
        tid = none) ∧
    (∀ (s : DetState) (t : ℚ) (obs : List Observation) (fh : ℚ) (p : Nat)
        (tid : Nat),
      lookupSubject (step s t (.detections obs fh p)).state.tracked_subjects
          tid ≠ none →
      tid ∈ obs.map Observation.track_id) ∧
    (∀ (s : DetState) (t : ℚ) (obs : List Observation) (fh : ℚ) (p : Nat)
        (tid : Nat), tid ∉ obs.map Observation.track_id →
      step { s with tracked_subjects := eraseTrack s.tracked_subjects tid } t
          (.detections obs fh p) =
        step s t (.detections obs fh p)) := by
  refine ⟨?_, ?_, ?_⟩
  · intro s t obs fh p tid hmem habs
    rw [step_tracked_split, lookup_cleanup, if_neg habs]
  · intro s t obs fh p tid hne
    by_contra habs
    rw [step_tracked_split, lookup_cleanup, if_neg habs] at hne
    exact hne rfl
  · intro s t obs fh p tid habs
    simp only [step,
      processObservations_erase s.tracked_subjects s.next_pid obs fh t tid habs,
      cleanup_erase (processObservations s.tracked_subjects s.next_pid obs fh
        t).1 (obs.map Observation.track_id) tid habs]

/-- Witness for claim4_track_lost: a tracked subject whose id 7 is absent from
the frame is gone after the step. -/
theorem claim4_witness :
    lookupSubject
      (step ⟨[(7, ⟨0, .normal, none, false⟩)], ⟨none, .inactive, 0, ∅⟩, 1, 0⟩ 0
        (.detections [] 100 0)).state.tracked_subjects 7 = none :=
  claim4_track_lost.1 ⟨[(7, ⟨0, .normal, none, false⟩)], ⟨none, .inactive, 0, ∅⟩,
    1, 0⟩ 0 [] 100 0 7 ⟨⟨0, .normal, none, false⟩, rfl⟩ (by simp)

/-- C7: the ground-pose heuristic returns not-on-ground whenever fewer than 2
of the four torso keypoints (left/right shoulder, left/right hip) have
confidence above the fixed 0.5 threshold; with 2 or more confident keypoints
it returns on-ground exactly when the average confident y-coordinate exceeds
frame_height times the ground-threshold fraction. -/
theorem claim7_ground_heuristic (keypoints : Nat → Keypoint)
    (frame_height g : ℚ) :
    ((valid_points_y keypoints).length =
      ((if (keypoints LEFT_SHOULDER).conf > 1/2 then 1 else 0) +
       (if (keypoints RIGHT_SHOULDER).conf > 1/2 then 1 else 0) +
       (if (keypoints LEFT_HIP).conf > 1/2 then 1 else 0) +
       (if (keypoints RIGHT_HIP).conf > 1/2 then 1 else 0))) ∧
    ((valid_points_y keypoints).length < 2 →
      is_person_on_ground_yolo keypoints frame_height g = false) ∧
    (2 ≤ (valid_points_y keypoints).length →
      (is_person_on_ground_yolo keypoints frame_height g = true ↔
        (valid_points_y keypoints).sum / ((valid_points_y keypoints).length : ℚ) >
          frame_height * g)) := by
  refine ⟨?_, ?_, ?_⟩
  · unfold valid_points_y
    split_ifs <;> simp
  · intro h
    simp [is_person_on_ground_yolo, h]
  · intro h
    have h2 : ¬ (valid_points_y keypoints).length < 2 := by omega
    simp [is_person_on_ground_yolo, h2]

/-- Witness for claim7_ground_heuristic at a keypoint set with all four torso
points confident and on-ground. -/
theorem claim7_witness :
    2 ≤ (valid_points_y (fun _ => ⟨0, 90, 1⟩)).length ∧
      (is_person_on_ground_yolo (fun _ => ⟨0, 90, 1⟩) 100 (55/100) = true ↔
        (valid_points_y (fun _ => ⟨0, 90, 1⟩)).sum /
            ((valid_points_y (fun _ => ⟨0, 90, 1⟩)).length : ℚ) >
          100 * (55/100)) :=
  ⟨by norm_num [valid_points_y],
   (claim7_ground_heuristic (fun _ => ⟨0, 90, 1⟩) 100 (55/100)).2.2
     (by norm_num [valid_points_y])⟩

/-- C8: the persistence consumer handles commands one at a time in arrival
order; an exec failure is logged and the consumer continues with the next
command; an unrecognized action is logged as a warning and dropped without
stopping; the sentinel (None or a shutdown action) terminates the loop and
releases the store connection, leaving later commands unprocessed. -/
theorem claim8_db_writer :
    (∀ (σ : Type) (exec : σ → DbTask → Option σ) (store store2 : σ)
        (task : DbTask) (rest : List (Option DbTask)),
      task.action ∈ knownActions → exec store task = some store2 →
      db_writer_process exec store (some task :: rest) =
        db_writer_process exec store2 rest) ∧
    (∀ (σ : Type) (exec : σ → DbTask → Option σ) (store : σ)
        (task : DbTask) (rest : List (Option DbTask)),
      task.action ∈ knownActions → exec store task = none →
      db_writer_process exec store (some task :: rest) =
        ⟨(db_writer_process exec store rest).store,
         "error" :: (db_writer_process exec store rest).logs,
         (db_writer_process exec store rest).closed⟩) ∧
    (∀ (σ : Type) (exec : σ → DbTask → Option σ) (store : σ)
        (task : DbTask) (rest : List (Option DbTask)),
      task.action ∉ knownActions → task.action ≠ "shutdown" →
      db_writer_process exec store (some task :: rest) =
        ⟨(db_writer_process exec store rest).store,
         "warning unknown action" :: (db_writer_process exec store rest).logs,
         (db_writer_process exec store rest).closed⟩) ∧
    (∀ (σ : Type) (exec : σ → DbTask → Option σ) (store : σ)
        (rest : List (Option DbTask)),
      db_writer_process exec store (none :: rest) = ⟨store, ["shutdown"], true⟩) ∧
    (∀ (σ : Type) (exec : σ → DbTask → Option σ) (store : σ) (p : Nat)
        (rest : List (Option DbTask)),
      db_writer_process exec store (some ⟨"shutdown", p⟩ :: rest) =
        ⟨store, ["shutdown"], true⟩) := by
  refine ⟨?_, ?_, ?_, ?_, ?_⟩
  · intro σ exec store store2 task rest hmem hexec
    simp [db_writer_process, known_ne_shutdown hmem, hmem, hexec]
  · intro σ exec store task rest hmem hexec
    simp [db_writer_process, known_ne_shutdown hmem, hmem, hexec]
  · intro σ exec store task rest hmem hne
    simp [db_writer_process, hne, hmem]
  · intro σ exec store rest
    simp [db_writer_process]
  · intro σ exec store p rest
    simp [db_writer_process]

/-- Witness for claim8_db_writer: a recognized command is applied and the
consumer continues with the remaining queue. -/
theorem claim8_witness :
    db_writer_process (fun (s : Nat) _ => some (s + 1)) 0
        [some ⟨"end_event", 0⟩] =
      db_writer_process (fun (s : Nat) _ => some (s + 1)) 1 [] :=
  claim8_db_writer.1 Nat (fun s _ => some (s + 1)) 0 1 ⟨"end_event", 0⟩ []
    (by decide) rfl

/-- C9: a failed analysis task (the external call raising) produces zero
persistence commands and no retry, and the worker continues with subsequent
tasks; a successful task produces exactly one add_vlm_log command carrying the
description, the feature vector and the subject id list. -/
theorem claim9_analysis_worker :
    (∀ (analyze : VlmTask → Option String) (emb : List ℚ) (payload : VlmTask),
      analyze payload = none → run_vlm_analysis analyze emb payload = []) ∧
    (∀ (analyze : VlmTask → Option String) (emb : List ℚ) (payload : VlmTask)
        (d : String),
      analyze payload = some d →
      run_vlm_analysis analyze emb payload =
        [DbAction.add_vlm_log payload.event_id "cam_01" d emb payload.subjects]) ∧
    (∀ (analyze : VlmTask → Option String) (emb : List ℚ) (tag : String)
        (payload : VlmTask) (rest : List (Option (String × VlmTask))),
      background_ai_worker analyze emb (some (tag, payload) :: rest) =
        (if tag = "analyze_threat" then run_vlm_analysis analyze emb payload
         else []) ++ background_ai_worker analyze emb rest) ∧
    (∀ (analyze : VlmTask → Option String) (emb : List ℚ) (payload : VlmTask)
        (rest : List (Option (String × VlmTask))),
      analyze payload = none →
      background_ai_worker analyze emb (some ("analyze_threat", payload) :: rest) =
        background_ai_worker analyze emb rest) := by
  refine ⟨?_, ?_, ?_, ?_⟩
  · intro analyze emb payload h
    simp [run_vlm_analysis, h]
  · intro analyze emb payload d h
    simp [run_vlm_analysis, h]
  · intro analyze emb tag payload rest
    rfl
  · intro analyze emb payload rest h
    simp [background_ai_worker, run_vlm_analysis, h]

/-- Witness for claim9_analysis_worker: a failing analysis call contributes no
commands and the worker goes on. -/
theorem claim9_witness :
    background_ai_worker (fun _ => none) []
        [some ("analyze_threat", ⟨none, [], 0⟩)] =
      background_ai_worker (fun _ => none) [] [] :=
  claim9_analysis_worker.2.2.2 (fun _ => none) [] ⟨none, [], 0⟩ [] rfl

/-- C10: a frame in which the tracker reports no tracked persons at all
(results.boxes.id is None) leaves the whole detection state unchanged and
emits no persistence command and no analysis task. -/
theorem claim10_no_detections :
    ∀ (s : DetState) (t : ℚ), step s t Frame.noDetections = ⟨s, [], []⟩ :=
  fun _ _ => rfl

end GuardianAI
